import Mathlib

/-!
Shallow embedding of `src/main.rs` (the RustInCountry lookup service).

Strings are modelled as lists of Unicode code points (`List Nat`), so that
the character-level operations of the Rust code (`char::is_whitespace`,
`str::trim`, `str::to_lowercase`, `str::split(',')`) become explicit
recursive functions on `List Nat`.  `to_lowercase` and `is_whitespace` are
modelled on their ASCII behaviour (the reference table's keys are pure
ASCII, so the Unicode-only cases never influence a lookup result).
The Rust `HashMap` with pairwise-distinct keys is modelled as an
association list searched with `List.find?`.
-/

namespace CountryLookup

/-- Code points of a Lean string literal, used to write the table entries
and concrete test inputs. -/
def strChars (s : String) : List Nat := s.data.map Char.toNat

/-- ASCII fragment of Rust `char::is_whitespace` (tab, LF, VT, FF, CR, space). -/
def isWhitespace (c : Nat) : Bool :=
  c == 9 || c == 10 || c == 11 || c == 12 || c == 13 || c == 32

/-- ASCII fragment of Rust `char::to_lowercase`: map A-Z to a-z, fix the rest. -/
def charToLower (c : Nat) : Nat :=
  if 65 ≤ c ∧ c ≤ 90 then c + 32 else c

/-- Rust `str::to_lowercase`, character by character. -/
def charsToLower (s : List Nat) : List Nat := s.map charToLower

/-- Rust `str::trim`: drop leading and trailing whitespace. -/
def trim (s : List Nat) : List Nat :=
  ((s.dropWhile isWhitespace).reverse.dropWhile isWhitespace).reverse

/-- Rust `str::split(',')`: split on the literal comma (code point 44);
the empty string yields one empty token. -/
def splitOnComma : List Nat → List (List Nat)
  | [] => [[]]
  | c :: cs =>
    match splitOnComma cs with
    | [] => [[]]
    | t :: ts => if c = 44 then [] :: t :: ts else (c :: t) :: ts

/-- The Rust struct `CountryInfo` (serialized field name `currencyCode`). -/
structure CountryInfo where
  country : List Nat
  flag : List Nat
  currency_code : List Nat
deriving DecidableEq

/-- The literal table built by the `COUNTRY_DATA` static initializer in
`main.rs` lines 30-56: key, flag emoji, currency code.  The 20 keys are
pairwise distinct, so the insertion-built `HashMap` holds exactly these
entries. -/
def COUNTRY_DATA : List (List Nat × List Nat × List Nat) := [
  (strChars "japan", strChars "🇯🇵", strChars "JPY"),
  (strChars "korea", strChars "🇰🇷", strChars "KRW"),
  (strChars "south korea", strChars "🇰🇷", strChars "KRW"),
  (strChars "united states", strChars "🇺🇸", strChars "USD"),
  (strChars "usa", strChars "🇺🇸", strChars "USD"),
  (strChars "united kingdom", strChars "🇬🇧", strChars "GBP"),
  (strChars "uk", strChars "🇬🇧", strChars "GBP"),
  (strChars "china", strChars "🇨🇳", strChars "CNY"),
  (strChars "germany", strChars "🇩🇪", strChars "EUR"),
  (strChars "france", strChars "🇫🇷", strChars "EUR"),
  (strChars "canada", strChars "🇨🇦", strChars "CAD"),
  (strChars "australia", strChars "🇦🇺", strChars "AUD"),
  (strChars "brazil", strChars "🇧🇷", strChars "BRL"),
  (strChars "india", strChars "🇮🇳", strChars "INR"),
  (strChars "mexico", strChars "🇲🇽", strChars "MXN"),
  (strChars "singapore", strChars "🇸🇬", strChars "SGD"),
  (strChars "switzerland", strChars "🇨🇭", strChars "CHF"),
  (strChars "sweden", strChars "🇸🇪", strChars "SEK"),
  (strChars "norway", strChars "🇳🇴", strChars "NOK"),
  (strChars "denmark", strChars "🇩🇰", strChars "DKK")]

/-- `HashMap::get` on a table with distinct keys: first (hence only)
entry whose key equals the query, projected to its (flag, currency) pair. -/
def lookupIn (data : List (List Nat × List Nat × List Nat)) (key : List Nat) :
    Option (List Nat × List Nat) :=
  (data.find? (fun e => e.1 == key)).map (fun e => e.2)

/-- `COUNTRY_DATA.get(&key)` in `get_country`. -/
def lookup (key : List Nat) : Option (List Nat × List Nat) :=
  lookupIn COUNTRY_DATA key

/-- The handler `get_country` of `main.rs` lines 58-77: split the `based`
parameter on commas, trim each token, and for each token whose lowercased
form is in `COUNTRY_DATA` push a `CountryInfo` carrying the trimmed
original token. -/
def get_country (based : List Nat) : List CountryInfo :=
  let countries : List (List Nat) := (splitOnComma based).map trim
  countries.foldl
    (fun results country_name =>
      let country_lower := charsToLower country_name
      match lookup country_lower with
      | some (flag, currency_code) =>
        results ++ [{ country := country_name, flag := flag,
                      currency_code := currency_code }]
      | none => results)
    []

/-- The result, if any, that a single trimmed token contributes. -/
def entryFor (t : List Nat) : Option CountryInfo :=
  (lookup (charsToLower t)).map
    (fun fc => { country := t, flag := fc.1, currency_code := fc.2 })

/-- The `once_cell::sync::Lazy` cell holding `COUNTRY_DATA`: forcing an
uninitialized cell runs the initializer exactly once; forcing an
initialized cell returns the stored table unchanged. -/
def lazyForce (cell : Option (List (List Nat × List Nat × List Nat))) :
    List (List Nat × List Nat × List Nat) ×
      Option (List (List Nat × List Nat × List Nat)) :=
  match cell with
  | some data => (data, some data)
  | none => (COUNTRY_DATA, some COUNTRY_DATA)

/-- `get_country` with the `Lazy` static made explicit: the handler forces
the cell, reads the table from it, and never writes anything else. -/
def get_country_st (cell : Option (List (List Nat × List Nat × List Nat)))
    (based : List Nat) :
    List CountryInfo × Option (List (List Nat × List Nat × List Nat)) :=
  let forced := lazyForce cell
  (((splitOnComma based).map trim).foldl
    (fun results country_name =>
      match lookupIn forced.1 (charsToLower country_name) with
      | some (flag, currency_code) =>
        results ++ [{ country := country_name, flag := flag,
                      currency_code := currency_code }]
      | none => results)
    [], forced.2)

/-! Helper lemmas about the embedded operations. -/

/-- The push-into-`results` loop of `get_country` is `filterMap entryFor`. -/
theorem get_country_eq_filterMap (based : List Nat) :
    get_country based = ((splitOnComma based).map trim).filterMap entryFor := by
  unfold get_country
  suffices h : ∀ (ts : List (List Nat)) (acc : List CountryInfo),
      ts.foldl
        (fun results country_name =>
          match lookup (charsToLower country_name) with
          | some (flag, currency_code) =>
            results ++ [{ country := country_name, flag := flag,
                          currency_code := currency_code }]
          | none => results) acc
        = acc ++ ts.filterMap entryFor by
    simpa using h ((splitOnComma based).map trim) []
  intro ts
  induction ts with
  | nil => intro acc; simp
  | cons t ts ih =>
    intro acc
    rw [List.foldl_cons, List.filterMap_cons, ih]
    cases h : lookup (charsToLower t) with
    | none => simp [entryFor, h]
    | some fc => simp [entryFor, h]

/-- A produced entry carries the token it was produced from. -/
theorem entryFor_country {t : List Nat} {r : CountryInfo} (h : entryFor t = some r) :
    r.country = t := by
  unfold entryFor at h
  obtain ⟨fc, hfc, hr⟩ := Option.map_eq_some'.mp h
  rw [← hr]

/-- The countries of the result list are the matching tokens, in order. -/
theorem map_country_eq_filter (ts : List (List Nat)) :
    (ts.filterMap entryFor).map (fun r => r.country) =
      ts.filter (fun t => (lookup (charsToLower t)).isSome) := by
  induction ts with
  | nil => rfl
  | cons t ts ih =>
    rw [List.filterMap_cons, List.filter_cons]
    cases hl : lookup (charsToLower t) with
    | none => simpa [entryFor, hl] using ih
    | some fc => simp [entryFor, hl, ih]

/-- Splitting never yields an empty token sequence. -/
theorem splitOnComma_ne_nil (s : List Nat) : splitOnComma s ≠ [] := by
  induction s with
  | nil => simp [splitOnComma]
  | cons c cs ih =>
    rw [splitOnComma]
    cases h : splitOnComma cs with
    | nil => simp
    | cons t ts =>
      by_cases hc : c = 44 <;> simp [hc]

/-- A comma-free string splits into exactly itself. -/
theorem splitOnComma_no_comma (s : List Nat) (h : ∀ c ∈ s, c ≠ 44) :
    splitOnComma s = [s] := by
  induction s with
  | nil => rfl
  | cons c cs ih =>
    have hc : c ≠ 44 := h c (by simp)
    have ih2 : splitOnComma cs = [cs] := ih (fun x hx => h x (List.mem_cons_of_mem _ hx))
    rw [splitOnComma, ih2]
    simp [hc]

/-- ASCII lowercasing hits the comma only at the comma. -/
theorem charToLower_eq_comma {c : Nat} : charToLower c = 44 ↔ c = 44 := by
  unfold charToLower
  split <;> omega

/-- ASCII lowercasing does not change whether a character is whitespace. -/
theorem isWhitespace_charToLower (c : Nat) : isWhitespace (charToLower c) = isWhitespace c := by
  unfold charToLower isWhitespace
  split
  · rw [Bool.eq_iff_iff]
    simp only [Bool.or_eq_true, beq_iff_eq]
    omega
  · rfl

/-- Dropping leading whitespace commutes with lowercasing. -/
theorem dropWhile_ws_map (l : List Nat) :
    (l.map charToLower).dropWhile isWhitespace =
      (l.dropWhile isWhitespace).map charToLower := by
  induction l with
  | nil => rfl
  | cons c cs ih =>
    simp only [List.map_cons, List.dropWhile_cons, isWhitespace_charToLower]
    cases h : isWhitespace c with
    | true => simpa [h] using ih
    | false => simp [h]

/-- If a string lowercases to one with no leading whitespace, it has none itself. -/
theorem dropWhile_eq_self_of_map {K K' : List Nat}
    (hmap : K'.map charToLower = K)
    (hK : K.dropWhile isWhitespace = K) :
    K'.dropWhile isWhitespace = K' := by
  have h1 : (K'.dropWhile isWhitespace).map charToLower = K := by
    rw [← dropWhile_ws_map, hmap, hK]
  have hlen1 : (K'.dropWhile isWhitespace).length = K.length := by
    simpa using congrArg List.length h1
  have hlen2 : K.length = K'.length := by
    simpa using (congrArg List.length hmap).symm
  exact (List.dropWhile_suffix _).eq_of_length (hlen1.trans hlen2)

/-- A string that lowercases to a whitespace-trimmed one is itself trimmed. -/
theorem trim_eq_self_of_map {K K' : List Nat}
    (hmap : K'.map charToLower = K)
    (h1 : K.dropWhile isWhitespace = K)
    (h2 : K.reverse.dropWhile isWhitespace = K.reverse) :
    trim K' = K' := by
  have d1 : K'.dropWhile isWhitespace = K' := dropWhile_eq_self_of_map hmap h1
  have hmapr : K'.reverse.map charToLower = K.reverse := by
    rw [List.map_reverse, hmap]
  have d2 : K'.reverse.dropWhile isWhitespace = K'.reverse :=
    dropWhile_eq_self_of_map hmapr h2
  unfold trim
  rw [d1, d2, List.reverse_reverse]

/-- Every table key is lowercase, whitespace-trimmed and comma-free. -/
theorem countryData_keys_ok : ∀ e ∈ COUNTRY_DATA,
    e.1.map charToLower = e.1 ∧ e.1.dropWhile isWhitespace = e.1 ∧
    e.1.reverse.dropWhile isWhitespace = e.1.reverse ∧ ∀ c ∈ e.1, c ≠ 44 := by
  decide

/-- Looking up any table key returns that entry's pair. -/
theorem lookup_mem : ∀ e ∈ COUNTRY_DATA, lookup e.1 = some e.2 := by decide

/-- Removing the unmatched tokens from the token stream does not change
the produced entries. -/
theorem filterMap_entryFor_filter (ts : List (List Nat)) :
    ((ts.filter (fun t => (lookup (charsToLower t)).isSome)).filterMap entryFor) =
      ts.filterMap entryFor := by
  induction ts with
  | nil => rfl
  | cons t ts ih =>
    rw [List.filter_cons]
    cases hl : lookup (charsToLower t) with
    | none => simp [entryFor, hl, List.filterMap_cons, ih]
    | some fc => simp [entryFor, hl, List.filterMap_cons, ih]

/-! Claim theorems. -/

/-- C1: the Reference Dataset holds exactly the 20 entries of the literal
table — the key list has 20 pairwise-distinct keys, looking up each key
returns exactly that entry's (flag, currencyCode) pair, and looking up any
key outside the table returns nothing. -/
theorem C1_dataset_exact :
    COUNTRY_DATA.length = 20 ∧ (COUNTRY_DATA.map Prod.fst).Nodup ∧
    (∀ e ∈ COUNTRY_DATA, lookup e.1 = some e.2) ∧
    (∀ k : List Nat, (∀ e ∈ COUNTRY_DATA, e.1 ≠ k) → lookup k = none) := by
  refine ⟨by decide, by decide, lookup_mem, ?_⟩
  intro k hk
  have hfind : COUNTRY_DATA.find? (fun e => e.1 == k) = none :=
    List.find?_eq_none.mpr (fun e he => by simpa using hk e he)
  unfold lookup lookupIn
  rw [hfind]
  rfl

/-- C1 witness: a key outside the table looks up to nothing. -/
theorem C1_dataset_exact_witness : lookup (strChars "atlantis") = none :=
  C1_dataset_exact.2.2.2 (strChars "atlantis") (by decide)

/-- C2: for every key of the table and every casing variant of it, the
handler returns exactly one entry, carrying the variant as `country` and
the table's flag and currency code. -/
theorem C2_case_insensitive :
    ∀ e ∈ COUNTRY_DATA, ∀ K : List Nat, K.map charToLower = e.1.map charToLower →
      get_country K = [{ country := K, flag := e.2.1, currency_code := e.2.2 }] := by
  intro e he K hvar
  obtain ⟨hlow, hd1, hd2, hnc⟩ := countryData_keys_ok e he
  have hmap : K.map charToLower = e.1 := by rw [hvar, hlow]
  have hKc : ∀ c ∈ K, c ≠ 44 := by
    intro c hc hceq
    subst hceq
    have h44 : charToLower 44 ∈ K.map charToLower :=
      List.mem_map_of_mem _ hc
    rw [hmap] at h44
    exact hnc 44 h44 rfl
  have hsplit : splitOnComma K = [K] := splitOnComma_no_comma K hKc
  have htrim : trim K = K := trim_eq_self_of_map hmap hd1 hd2
  have hlook : lookup (charsToLower K) = some e.2 := by
    unfold charsToLower
    rw [hmap]
    exact lookup_mem e he
  rw [get_country_eq_filterMap, hsplit]
  simp [entryFor, htrim, hlook]

/-- C2 witness: a mixed-case variant of the key japan yields the one
japan entry with the variant kept as `country`. -/
theorem C2_case_insensitive_witness :
    get_country (strChars "JaPaN") =
      [{ country := strChars "JaPaN", flag := strChars "🇯🇵",
         currency_code := strChars "JPY" }] :=
  C2_case_insensitive (strChars "japan", strChars "🇯🇵", strChars "JPY")
    (by decide) (strChars "JaPaN") (by decide)

/-- C3: the result list is exactly the entries of the matching tokens in
input token order — it equals `filterMap entryFor` over the trimmed token
sequence, its `country` projection equals the matching tokens filtered in
place, and the japan,unknown,korea example keeps japan before korea. -/
theorem C3_order_preserved :
    (∀ based : List Nat,
      get_country based = ((splitOnComma based).map trim).filterMap entryFor ∧
      (get_country based).map (fun r => r.country) =
        ((splitOnComma based).map trim).filter
          (fun t => (lookup (charsToLower t)).isSome)) ∧
    (get_country (strChars "japan,unknown,korea")).map (fun r => r.country) =
      [strChars "japan", strChars "korea"] := by
  refine ⟨fun based => ⟨get_country_eq_filterMap based, ?_⟩, by decide⟩
  rw [get_country_eq_filterMap, map_country_eq_filter]

/-- C4: every result entry's `country` is the trimmed text of one of the
raw comma-separated tokens; the original casing survives (JAPAN stays
JAPAN) and surrounding whitespace is removed (japan, korea, usa with
spaces). -/
theorem C4_country_is_trimmed_original :
    (∀ (based : List Nat) (r : CountryInfo), r ∈ get_country based →
      ∃ tok ∈ splitOnComma based, r.country = trim tok) ∧
    get_country (strChars "JAPAN") =
      [{ country := strChars "JAPAN", flag := strChars "🇯🇵",
         currency_code := strChars "JPY" }] ∧
    (get_country (strChars "japan, korea, usa")).map (fun r => r.country) =
      [strChars "japan", strChars "korea", strChars "usa"] := by
  refine ⟨?_, by decide, by decide⟩
  intro based r hr
  rw [get_country_eq_filterMap] at hr
  obtain ⟨t, ht, hsome⟩ := List.mem_filterMap.mp hr
  obtain ⟨tok, htok, rfl⟩ := List.mem_map.mp ht
  exact ⟨tok, htok, entryFor_country hsome⟩

/-- C4 witness: the one entry for a padded mixed-case token carries the
trimmed original token. -/
theorem C4_country_is_trimmed_original_witness :
    ∃ tok ∈ splitOnComma (strChars " JaPan "),
      (strChars "JaPan") = trim tok :=
  C4_country_is_trimmed_original.1 (strChars " JaPan ")
    { country := strChars "JaPan", flag := strChars "🇯🇵",
      currency_code := strChars "JPY" }
    (by decide)

/-- C5: a token whose trimmed lowercased form is not in the table is
skipped entirely, also amid matched tokens — an unmatched token
contributes no entry in any input, deleting the unmatched tokens from any
input's token stream leaves the result unchanged, the result length is the
number of matched tokens, the unmatched middle token of
japan,unknown,korea changes nothing against japan,korea, and
handle("unknown") returns the empty list. -/
theorem C5_unmatched_skipped :
    (∀ t : List Nat, lookup (charsToLower t) = none → entryFor t = none) ∧
    (∀ based : List Nat,
      get_country based =
        (((splitOnComma based).map trim).filter
          (fun t => (lookup (charsToLower t)).isSome)).filterMap entryFor) ∧
    (∀ based : List Nat,
      (get_country based).length =
        (((splitOnComma based).map trim).filter
          (fun t => (lookup (charsToLower t)).isSome)).length) ∧
    get_country (strChars "japan,unknown,korea") =
      get_country (strChars "japan,korea") ∧
    get_country (strChars "unknown") = [] := by
  refine ⟨?_, ?_, ?_, by decide, by decide⟩
  · intro t h
    unfold entryFor
    rw [h]
    rfl
  · intro based
    rw [get_country_eq_filterMap, filterMap_entryFor_filter]
  · intro based
    rw [get_country_eq_filterMap]
    have h := congrArg List.length (map_country_eq_filter ((splitOnComma based).map trim))
    simpa using h

/-- C5 witness: the unmatched token unknown contributes no entry. -/
theorem C5_unmatched_skipped_witness :
    entryFor (strChars "unknown") = none :=
  C5_unmatched_skipped.1 (strChars "unknown") (by decide)

/-- C6: the empty input splits into exactly one empty token, that token
fails the lookup, and the handler returns the empty result list. -/
theorem C6_empty_input :
    splitOnComma (strChars "") = [strChars ""] ∧
    lookup (charsToLower (trim (strChars ""))) = none ∧
    get_country (strChars "") = [] := by
  decide

/-- C7: the handler is deterministic and drifts no state — with the lazy
table cell made explicit, a repeated call on the same input returns the
identical result list and leaves the cell unchanged, and a first call from
the uninitialized cell agrees with the pure `get_country`. -/
theorem C7_deterministic :
    ∀ (cell : Option (List (List Nat × List Nat × List Nat))) (based : List Nat),
      (get_country_st ((get_country_st cell based).2) based).1 =
        (get_country_st cell based).1 ∧
      (get_country_st ((get_country_st cell based).2) based).2 =
        (get_country_st cell based).2 ∧
      (get_country_st none based).1 = get_country based := by
  intro cell based
  cases cell <;> exact ⟨rfl, rfl, rfl⟩

/-- C8: the handler is total — every input splits into at least one token
and the handler returns a result list no longer than the token sequence,
with no error outcome in its type. -/
theorem C8_total :
    ∀ based : List Nat,
      splitOnComma based ≠ [] ∧
      (get_country based).length ≤ ((splitOnComma based).map trim).length := by
  intro based
  refine ⟨splitOnComma_ne_nil based, ?_⟩
  rw [get_country_eq_filterMap]
  exact List.length_filterMap_le _ _

/-- C9: the alias keys uk, usa and korea look up to exactly the pairs of
their canonical names, and the handler's flag and currency output agrees
between each alias and its canonical name. -/
theorem C9_aliases :
    lookup (strChars "uk") = lookup (strChars "united kingdom") ∧
    lookup (strChars "usa") = lookup (strChars "united states") ∧
    lookup (strChars "korea") = lookup (strChars "south korea") ∧
    (get_country (strChars "uk")).map (fun r => (r.flag, r.currency_code)) =
      (get_country (strChars "united kingdom")).map
        (fun r => (r.flag, r.currency_code)) ∧
    (get_country (strChars "usa")).map (fun r => (r.flag, r.currency_code)) =
      (get_country (strChars "united states")).map
        (fun r => (r.flag, r.currency_code)) ∧
    (get_country (strChars "korea")).map (fun r => (r.flag, r.currency_code)) =
      (get_country (strChars "south korea")).map
        (fun r => (r.flag, r.currency_code)) := by
  decide

/-- C10: no deduplication — for any token value that matches the table,
the result list carries one entry per occurrence of that trimmed token, so
counts agree with the token sequence; japan,japan yields two japan
entries. -/
theorem C10_no_dedup :
    (∀ based k : List Nat, (lookup (charsToLower k)).isSome = true →
      ((get_country based).map (fun r => r.country)).count k =
        ((splitOnComma based).map trim).count k) ∧
    (get_country (strChars "japan,japan")).map (fun r => r.country) =
      [strChars "japan", strChars "japan"] := by
  refine ⟨?_, by decide⟩
  intro based k hk
  rw [get_country_eq_filterMap, map_country_eq_filter]
  exact List.count_filter hk

/-- C10 witness: the result counts of japan in japan,japan match the two
token occurrences. -/
theorem C10_no_dedup_witness :
    ((get_country (strChars "japan,japan")).map (fun r => r.country)).count
        (strChars "japan") =
      ((splitOnComma (strChars "japan,japan")).map trim).count
        (strChars "japan") :=
  C10_no_dedup.1 (strChars "japan,japan") (strChars "japan") (by decide)

end CountryLookup
